import Mathlib

/-!
Verification of the light-client Scheduler of this repository.

The data model follows `light-spike/src/types.rs`, the Scheduler follows
`light-spike/src/components/scheduler.rs`, the Requester follows
`light-spike/src/requester.rs`, and the test-harness traversal follows
`testgen/src/tester.rs`.  Machine integers (`Height` = `u64`) are modelled
as `Nat` with an explicit bound check where the source uses `checked_add`.
The capability bundle (`Router`, `TSReader`) is modelled as a record of
deterministic functions; every call the Scheduler issues through it is
recorded in a query trace so that call-count and call-order properties can
be stated.  Rust panics (`expect`, `unwrap`, `todo!`) are modelled as an
explicit `panic` outcome, and the recursion is driven by explicit fuel:
a call that would recurse deeper than its fuel yields `diverge`.
-/

namespace LightSpike

/-- Largest value of the `u64` type `Height` (`Hash` and `Height` from
`types.rs` are modelled as `Nat`: heights are `u64` values, hashes opaque
identifiers compared by equality). -/
def u64Max : Nat := 2 ^ 64 - 1

/-- `Header` from `types.rs`. `bft_time` (a `SystemTime`) is modelled as `Nat`. -/
structure Header where
  height : Nat
  bft_time : Nat
  validator_set_hash : Nat
  next_validator_set_hash : Nat
  hash : Nat
deriving DecidableEq, Repr

/-- `ValidatorSet` from `types.rs`. -/
structure ValidatorSet where
  hash : Nat
deriving DecidableEq, Repr

/-- `Commit` from `types.rs`. -/
structure Commit where
  header_hash : Nat
deriving DecidableEq, Repr

/-- `TrustThreshold` from `types.rs` (`u64` numerator and denominator). -/
structure TrustThreshold where
  numerator : Nat
  denominator : Nat
deriving DecidableEq, Repr

/-- `SignedHeader` from `types.rs`. -/
structure SignedHeader where
  header : Header
  commit : Commit
  validators : ValidatorSet
  validators_hash : Nat
deriving DecidableEq, Repr

/-- `TrustedState` from `types.rs`. -/
structure TrustedState where
  header : Header
  validators : ValidatorSet
deriving DecidableEq, Repr

/-- `LightBlock` from `types.rs`. -/
structure LightBlock where
  height : Nat
  signed_header : SignedHeader
  validator_set : ValidatorSet
  next_validator_set : ValidatorSet
deriving DecidableEq, Repr

/-- `VerificationOptions` from `scheduler.rs` (`Duration` and `SystemTime` as `Nat`). -/
structure VerificationOptions where
  trust_threshold : TrustThreshold
  trusting_period : Nat
  now : Nat
deriving DecidableEq, Repr

/-- Modelled from the spec: the `VerificationError` kinds visible to the
Scheduler (spec section 4.5); its definition is outside the provided sources,
but the kinds coincide with the `Error` enum of `types.rs`.  The
`InsufficientVotingPower` fields are irrelevant to the Scheduler (it matches
them with `{ .. }`) and are omitted. -/
inductive VerificationError where
  | implementationSpecific
  | insufficientValidatorsOverlap
  | insufficientVotingPower
  | invalidCommit
  | invalidCommitValue
  | invalidNextValidatorSet
  | invalidValidatorSet
  | nonIncreasingHeight (got expected : Nat)
  | nonMonotonicBftTime
  | notWithinTrustPeriod
deriving DecidableEq, Repr

/-- Modelled from the spec: `VerifierError`, as used in `scheduler.rs`
(`VerifierError::InvalidLightBlock(VerificationError)` is the only form the
Scheduler ever inspects or constructs). -/
inductive VerifierError where
  | invalidLightBlock (e : VerificationError)
deriving DecidableEq, Repr

/-- `SchedulerError` from `scheduler.rs`: its single variant wraps a
`VerifierError`. -/
inductive SchedulerError where
  | invalidLightBlock (e : VerifierError)
deriving DecidableEq, Repr

/-- Modelled from the spec: `VerifierResponse` (spec section 4.1). -/
inductive VerifierResponse where
  | verificationSucceeded (ts : TrustedState)
  | verificationFailed (e : VerifierError)
deriving DecidableEq, Repr

/-- Modelled from the spec: `RpcResponse`.  The exhaustive one-armed match in
`Scheduler::request_fetch_light_block` shows the type has exactly one
variant: `FetchedLightBlock(LightBlock)` (the spec's `FetchFailed` variant
belongs to its "richer error-handling design" and is absent from the code). -/
inductive RpcResponse where
  | fetchedLightBlock (lb : LightBlock)
deriving DecidableEq, Repr

/-- A query the Scheduler issues through the `Router`, recorded in order. -/
inductive Query where
  | verifier (ts : TrustedState) (lb : LightBlock) (opts : VerificationOptions)
  | fetch (h : Nat)
deriving DecidableEq, Repr

/-- Modelled from the spec: the deterministic environment a `verify`
invocation runs against — the `TSReader` view of the trusted store
(spec section 4.2) and the `Router` capability bundle (spec section 4.1). -/
structure Env where
  store : Nat → Option TrustedState
  verifier : TrustedState → LightBlock → VerificationOptions → VerifierResponse
  rpc : Nat → RpcResponse

/-- Result of one Scheduler call: a value, a `SchedulerError`, a Rust panic
(`expect`/`unwrap`), or fuel exhaustion. -/
inductive Outcome (α : Type) where
  | ok (a : α)
  | err (e : SchedulerError)
  | panic (msg : String)
  | diverge
deriving DecidableEq, Repr

/-- `u64::checked_add` on the `Height` type. -/
def checkedAdd (a b : Nat) : Option Nat :=
  if a + b ≤ u64Max then some (a + b) else none

/-- The sort key of `perform_bisection`'s `sort_by_key(|ts| ts.header.height)`. -/
def tsle (a b : TrustedState) : Prop :=
  a.header.height ≤ b.header.height

instance : DecidableRel tsle := fun a b => Nat.decLe a.header.height b.header.height

instance : IsTotal TrustedState tsle :=
  ⟨fun a b => Nat.le_total a.header.height b.header.height⟩

instance : IsTrans TrustedState tsle :=
  ⟨fun _ _ _ h h' => Nat.le_trans h h'⟩

/-- The stable ascending sort by `header.height` used by `perform_bisection`
(Rust's `sort_by_key` is a stable sort; stable insertion sort computes the
same list). -/
def sortByHeight (l : List TrustedState) : List TrustedState :=
  List.insertionSort tsle l

/-- `Scheduler::request_fetch_light_block`: dispatch `FetchLightBlock` and
match the (single-variant) response. -/
def request_fetch_light_block (env : Env) (height : Nat) :
    Except SchedulerError LightBlock :=
  match env.rpc height with
  | .fetchedLightBlock light_block => .ok light_block

/-- `Scheduler::verify_light_block` from `scheduler.rs`, with
`perform_verify_light_block`, `verification_succeded`, `verification_failed`
and `perform_bisection` inlined (they are split back out below as
`performBisection`).  The second component is the ordered trace of Router
queries.  Fuel bounds the recursion depth: each recursive call runs with one
unit less, and a call at fuel `0` yields `diverge`. -/
def verify_light_block (env : Env) :
    Nat → TrustedState → LightBlock → VerificationOptions →
      Outcome (List TrustedState) × List Query
  | 0, _, _, _ => (.diverge, [])
  | fuel + 1, trusted_state, light_block, options =>
    match env.store light_block.height with
    | some trusted_state_in_store => (.ok [trusted_state_in_store], [])
    | none =>
      match env.verifier trusted_state light_block options with
      | .verificationSucceeded new_trusted_state =>
          (.ok [new_trusted_state], [Query.verifier trusted_state light_block options])
      | .verificationFailed e =>
        match e with
        | .invalidLightBlock ve =>
          if ve = VerificationError.insufficientVotingPower then
            -- perform_bisection
            let pb :=
              match checkedAdd trusted_state.header.height light_block.height with
              | none => (Outcome.panic "height overflow", ([] : List Query))
              | some s =>
                let pivot_height := s / 2
                match request_fetch_light_block env pivot_height with
                | .error e' => (Outcome.err e', [Query.fetch pivot_height])
                | .ok pivot_light_block =>
                  match verify_light_block env fuel trusted_state pivot_light_block options with
                  | (.ok pivot_trusted_states, ltr) =>
                    match pivot_trusted_states.getLast? with
                    | none => (Outcome.panic "unwrap", Query.fetch pivot_height :: ltr)
                    | some trusted_state_left =>
                      match verify_light_block env fuel trusted_state_left light_block options with
                      | (.ok new_trusted_states, rtr) =>
                          (Outcome.ok (sortByHeight (new_trusted_states ++ pivot_trusted_states)),
                            Query.fetch pivot_height :: (ltr ++ rtr))
                      | (.err e2, rtr) =>
                          (Outcome.err e2, Query.fetch pivot_height :: (ltr ++ rtr))
                      | (.panic m, rtr) =>
                          (Outcome.panic m, Query.fetch pivot_height :: (ltr ++ rtr))
                      | (.diverge, rtr) =>
                          (Outcome.diverge, Query.fetch pivot_height :: (ltr ++ rtr))
                  | (.err e1, ltr) => (Outcome.err e1, Query.fetch pivot_height :: ltr)
                  | (.panic m, ltr) => (Outcome.panic m, Query.fetch pivot_height :: ltr)
                  | (.diverge, ltr) => (Outcome.diverge, Query.fetch pivot_height :: ltr)
            (pb.1, Query.verifier trusted_state light_block options :: pb.2)
          else
            (.err (.invalidLightBlock (.invalidLightBlock ve)),
              [Query.verifier trusted_state light_block options])

/-- `Scheduler::perform_bisection` from `scheduler.rs`, as a standalone
function: compute the pivot with `checked_add` (panicking on overflow), fetch
the pivot block, recurse left then right with the given fuel, concatenate
`right ++ left` and sort ascending by `header.height`. -/
def performBisection (env : Env) (fuel : Nat) (trusted_state : TrustedState)
    (light_block : LightBlock) (options : VerificationOptions) :
    Outcome (List TrustedState) × List Query :=
  match checkedAdd trusted_state.header.height light_block.height with
  | none => (Outcome.panic "height overflow", ([] : List Query))
  | some s =>
    let pivot_height := s / 2
    match request_fetch_light_block env pivot_height with
    | .error e' => (Outcome.err e', [Query.fetch pivot_height])
    | .ok pivot_light_block =>
      match verify_light_block env fuel trusted_state pivot_light_block options with
      | (.ok pivot_trusted_states, ltr) =>
        match pivot_trusted_states.getLast? with
        | none => (Outcome.panic "unwrap", Query.fetch pivot_height :: ltr)
        | some trusted_state_left =>
          match verify_light_block env fuel trusted_state_left light_block options with
          | (.ok new_trusted_states, rtr) =>
              (Outcome.ok (sortByHeight (new_trusted_states ++ pivot_trusted_states)),
                Query.fetch pivot_height :: (ltr ++ rtr))
          | (.err e2, rtr) =>
              (Outcome.err e2, Query.fetch pivot_height :: (ltr ++ rtr))
          | (.panic m, rtr) =>
              (Outcome.panic m, Query.fetch pivot_height :: (ltr ++ rtr))
          | (.diverge, rtr) =>
              (Outcome.diverge, Query.fetch pivot_height :: (ltr ++ rtr))
      | (.err e1, ltr) => (Outcome.err e1, Query.fetch pivot_height :: ltr)
      | (.panic m, ltr) => (Outcome.panic m, Query.fetch pivot_height :: ltr)
      | (.diverge, ltr) => (Outcome.diverge, Query.fetch pivot_height :: ltr)

/-- The block delivered by the Fetcher for a height (the `RpcResponse` has a
single variant, so this is total). -/
def fetchBlock (env : Env) (h : Nat) : LightBlock :=
  match env.rpc h with
  | .fetchedLightBlock lb => lb

/-- The trusted state the Verifier produces on success (spec section 4.5:
`T'.header == L.signed_header.header` and `T'.validators == L.validator_set`). -/
def tsOf (lb : LightBlock) : TrustedState :=
  ⟨lb.signed_header.header, lb.validator_set⟩

/-- The `LightBlock` internal-consistency invariant the Scheduler relies on
(spec section 3): the embedded header carries the block's height. -/
def lbInv (lb : LightBlock) : Prop :=
  lb.signed_header.header.height = lb.height

/-- The contracts of the external collaborators (spec sections 4.2, 4.4, 4.5):
a store hit is at the requested height, a Verifier success yields the
candidate block's header and validator set, and a fetched block sits at the
requested height and is internally consistent. -/
structure EnvOK (env : Env) : Prop where
  store_height : ∀ h s, env.store h = some s → s.header.height = h
  verifier_ok : ∀ ts lb opts ts', env.verifier ts lb opts = .verificationSucceeded ts' →
    ts' = tsOf lb
  fetch_height : ∀ h, (fetchBlock env h).height = h
  fetch_inv : ∀ h, lbInv (fetchBlock env h)

/-- The trusted state every successful call targeting `lb` ends with: the
stored state at `lb.height` when the store has one, otherwise the Verifier's
output for `lb`. -/
def canonical (env : Env) (lb : LightBlock) : TrustedState :=
  match env.store lb.height with
  | some s => s
  | none => tsOf lb

/-- `canonical` at the block the Fetcher delivers for height `h`. -/
def canonAt (env : Env) (h : Nat) : TrustedState :=
  canonical env (fetchBlock env h)

/-- Whether a `SchedulerError` carries the recoverable
`InsufficientVotingPower` kind. -/
def carriesIVP : SchedulerError → Bool
  | .invalidLightBlock (.invalidLightBlock ve) => ve = VerificationError.insufficientVotingPower

/-- Strict order on trusted states by `header.height`. -/
def tslt (a b : TrustedState) : Prop :=
  a.header.height < b.header.height

instance : IsTrans TrustedState tslt :=
  ⟨fun _ _ _ h h' => Nat.lt_trans h h'⟩

/-- Strictly increasing by `header.height`. -/
def HChain (l : List TrustedState) : Prop :=
  List.Chain' tslt l

/-! ## Requester (`requester.rs`) -/

/-- The `tendermint::rpc` commit response, reduced to the field
`fetch_signed_header` reads. -/
structure CommitResponse where
  signed_header : SignedHeader
deriving DecidableEq, Repr

/-- Which RPC-client endpoint a `Requester` call hits. -/
inductive RpcCall where
  | latestCommit
  | commit (h : Nat)
deriving DecidableEq, Repr

/-- The RPC client as seen by `Requester::fetch_signed_header`: deterministic
responses of the `latest_commit` and `commit` endpoints (an `error` response
models a failed RPC call). -/
structure RpcClient where
  latest_commit : Except Unit CommitResponse
  commit : Nat → Except Unit CommitResponse

/-- `Requester` from `requester.rs`. -/
structure Requester where
  rpc_client : RpcClient

/-- `Requester::fetch_signed_header`: height `0` queries `latest_commit`,
any other height queries `commit(height)`.  On an RPC error the source hits
`Err(todo!())`, i.e. panics, modelled as `none`.  The second component
records which endpoint was queried. -/
def fetch_signed_header (self : Requester) (h : Nat) :
    Option SignedHeader × RpcCall :=
  let res : Except Unit CommitResponse × RpcCall :=
    match h with
    | 0 => (self.rpc_client.latest_commit, RpcCall.latestCommit)
    | _ => (self.rpc_client.commit h, RpcCall.commit h)
  match res.1 with
  | .ok response => (some response.signed_header, res.2)
  | .error _ => (none, res.2)

/-! ## Test harness traversal (`tester.rs`) -/

/-- Rust's `str::starts_with` on the character content of a string
(kernel-computable form). -/
def strStartsWith (s pre : String) : Bool :=
  decide (s.data.take pre.data.length = pre.data)

/-- Rust's `str::ends_with` on the character content of a string
(kernel-computable form). -/
def strEndsWith (s suf : String) : Bool :=
  decide (suf.data.length ≤ s.data.length ∧
    s.data.drop (s.data.length - suf.data.length) = suf.data)

/-- The file kind of a directory entry (`DirEntry::file_type`). -/
inductive EntryKind where
  | file
  | dir
  | symlink
deriving DecidableEq, Repr

/-- A directory entry: its final path component and its kind. -/
structure FsEntry where
  name : String
  kind : EntryKind
deriving DecidableEq, Repr

/-- The filesystem as `Tester::run_foreach_in_dir` observes it: `read_dir`
on a path (a list of components relative to the tester root), `none` when
the directory cannot be read. -/
structure Fs where
  read_dir : List String → Option (List FsEntry)

/-- An observable action of the traversal, keyed by the path it concerns:
either a test file was handed to `run_for_file` (which records its results
under that path, or under that path extended by a batch-test name), or a
read error was recorded for an unreadable directory. -/
inductive HarnessEvent where
  | ranFile (path : List String)
  | readError (path : List String)
deriving DecidableEq, Repr

/-- The path a `HarnessEvent` concerns. -/
def eventPath : HarnessEvent → List String
  | .ranFile p => p
  | .readError p => p

/-- `Tester::run_foreach_in_dir` from `tester.rs`: read the directory
(recording a read error on failure); for each entry, skip it when its final
path component starts with `'_'`; otherwise run files and symlinks whose
name ends in `.json` through `run_for_file`, and recurse into
subdirectories.  Fuel bounds the recursion depth. -/
def run_foreach_in_dir (fs : Fs) : Nat → List String → List HarnessEvent
  | 0, _ => []
  | fuel + 1, dir =>
    match fs.read_dir dir with
    | none => [HarnessEvent.readError dir]
    | some entries =>
      entries.flatMap fun entry =>
        if strStartsWith entry.name "_" then []
        else
          match entry.kind with
          | .file | .symlink =>
            if strEndsWith entry.name ".json" then [HarnessEvent.ranFile (dir ++ [entry.name])]
            else []
          | .dir => run_foreach_in_dir fs fuel (dir ++ [entry.name])

/-- `base` is a component-wise prefix of `p` (decidable form). -/
def pathExtends (base p : List String) : Bool :=
  match base, p with
  | [], _ => true
  | _ :: _, [] => false
  | b :: bs, x :: xs => b = x && pathExtends bs xs

/-- How `perform_bisection` turns the right recursion's outcome into its own:
on success, concatenate `right ++ left` and sort by height; any failure
propagates. -/
def mergeOutcome (r : Outcome (List TrustedState))
    (pivot_trusted_states : List TrustedState) : Outcome (List TrustedState) :=
  match r with
  | .ok new_trusted_states => .ok (sortByHeight (new_trusted_states ++ pivot_trusted_states))
  | x => x

/-! ## Concrete inputs used by witnesses and counterexamples -/

/-- A minimal internally consistent header at height `h`. -/
def mkHeader (h : Nat) : Header := ⟨h, 0, 0, 0, h⟩

/-- A minimal internally consistent light block at height `h`. -/
def mkLightBlock (h : Nat) : LightBlock := ⟨h, ⟨mkHeader h, ⟨h⟩, ⟨0⟩, 0⟩, ⟨0⟩, ⟨0⟩⟩

/-- Fixed verification options for the concrete scenarios. -/
def opts0 : VerificationOptions := ⟨⟨1, 3⟩, 0, 0⟩

/-- A stored trusted state at height 10, distinguishable from `t0A` by its
validator-set hash. -/
def s10A : TrustedState := ⟨⟨10, 0, 99, 99, 10⟩, ⟨99⟩⟩

/-- A caller-supplied trusted state at height 10. -/
def t0A : TrustedState := ⟨mkHeader 10, ⟨0⟩⟩

/-- A caller-supplied trusted state at height 20. -/
def t20 : TrustedState := ⟨mkHeader 20, ⟨0⟩⟩

/-- Environment A: the store holds `s10A` at height 10; the Verifier accepts
any candidate whose anchor is `s10A` (recognised by its validator-set hash)
and reports `InsufficientVotingPower` for every other anchor; the Fetcher
always delivers `mkLightBlock`.  It satisfies all `EnvOK` contracts. -/
def envA : Env where
  store := fun h => if h = 10 then some s10A else none
  verifier := fun ts lb _ =>
    if ts.validators.hash = 99 then .verificationSucceeded (tsOf lb)
    else .verificationFailed (.invalidLightBlock .insufficientVotingPower)
  rpc := fun h => .fetchedLightBlock (mkLightBlock h)

/-- Environment with an empty store whose Verifier always reports
`InsufficientVotingPower`. -/
def envIVP : Env where
  store := fun _ => none
  verifier := fun _ _ _ => .verificationFailed (.invalidLightBlock .insufficientVotingPower)
  rpc := fun h => .fetchedLightBlock (mkLightBlock h)

/-- Environment with an empty store whose Verifier always succeeds. -/
def envYes : Env where
  store := fun _ => none
  verifier := fun _ lb _ => .verificationSucceeded (tsOf lb)
  rpc := fun h => .fetchedLightBlock (mkLightBlock h)

/-- Environment with an empty store whose Verifier always reports the fatal
`InvalidCommit` kind. -/
def envBad : Env where
  store := fun _ => none
  verifier := fun _ _ _ => .verificationFailed (.invalidLightBlock .invalidCommit)
  rpc := fun h => .fetchedLightBlock (mkLightBlock h)

/-- Environment for the spec's "recoverable then fatal" scenario: direct
verification of the target at height 20 fails with `InsufficientVotingPower`
and every other query fails with `InvalidValidatorSet`. -/
def envLeftFail : Env where
  store := fun _ => none
  verifier := fun _ lb _ =>
    if lb.height = 20 then .verificationFailed (.invalidLightBlock .insufficientVotingPower)
    else .verificationFailed (.invalidLightBlock .invalidValidatorSet)
  rpc := fun h => .fetchedLightBlock (mkLightBlock h)

/-- The termination scenario of the spec (section 8): empty store, a Fetcher
that always returns a block at the requested height, and a Verifier that
accepts exactly the queries whose height gap is at most 1 and fails wider
gaps with `InsufficientVotingPower`. -/
def adjacentEnv : Env where
  store := fun _ => none
  verifier := fun ts lb _ =>
    if lb.height ≤ ts.header.height + 1 then .verificationSucceeded (tsOf lb)
    else .verificationFailed (.invalidLightBlock .insufficientVotingPower)
  rpc := fun h => .fetchedLightBlock (mkLightBlock h)

/-- A trusted state at height `u64Max`, used to overflow the pivot sum. -/
def tsMax : TrustedState := ⟨mkHeader u64Max, ⟨0⟩⟩

/-- A concrete RPC client whose `latest_commit` endpoint answers with the
signed header at height 77 and whose `commit h` endpoint answers with the
signed header at height `h`. -/
def clientW : Requester :=
  ⟨⟨.ok ⟨(mkLightBlock 77).signed_header⟩, fun h => .ok ⟨(mkLightBlock h).signed_header⟩⟩⟩

/-- A concrete filesystem: the root holds a directory `_skip`, a test file
`a.json`, and a non-JSON file `b.txt`; `_skip` holds a further test file. -/
def fsW : Fs where
  read_dir := fun p =>
    if p = [] then some [⟨"_skip", .dir⟩, ⟨"a.json", .file⟩, ⟨"b.txt", .file⟩]
    else if p = ["_skip"] then some [⟨"c.json", .file⟩]
    else none

/-! ## Basic facts about the embedding -/

/-- One unfolding step of `verify_light_block` at positive fuel, expressed
through `performBisection` (the inlined bisection in `verify_light_block` is
definitionally `performBisection`). -/
theorem verify_succ_eq (env : Env) (fuel : Nat) (ts : TrustedState) (lb : LightBlock)
    (opts : VerificationOptions) :
    verify_light_block env (fuel + 1) ts lb opts =
      match env.store lb.height with
      | some s => (.ok [s], [])
      | none =>
        match env.verifier ts lb opts with
        | .verificationSucceeded ts' => (.ok [ts'], [Query.verifier ts lb opts])
        | .verificationFailed e =>
          match e with
          | .invalidLightBlock ve =>
            if ve = VerificationError.insufficientVotingPower then
              let pb := performBisection env fuel ts lb opts
              (pb.1, Query.verifier ts lb opts :: pb.2)
            else
              (.err (.invalidLightBlock (.invalidLightBlock ve)),
                [Query.verifier ts lb opts]) :=
  rfl

/-- The Fetcher query of the embedding never fails: `RpcResponse` has a
single variant, so `request_fetch_light_block` always returns the fetched
block. -/
theorem request_fetch_ok (env : Env) (h : Nat) :
    request_fetch_light_block env h = .ok (fetchBlock env h) := by
  unfold request_fetch_light_block fetchBlock
  cases env.rpc h
  rfl

/-- Environment A satisfies every collaborator contract of `EnvOK`. -/
theorem envA_ok : EnvOK envA := by
  refine ⟨?_, ?_, ?_, ?_⟩
  · intro h s hs
    simp only [envA] at hs
    split at hs
    · cases hs
      simp [s10A, *]
    · cases hs
  · intro ts lb opts ts' hv
    simp only [envA] at hv
    split at hv
    · cases hv
      rfl
    · cases hv
  · intro h
    rfl
  · intro h
    rfl

/-- No error returned by `verify_light_block` ever carries the
`InsufficientVotingPower` kind: the only error constructor wraps the
non-recoverable branch of `verification_failed`, and recursive errors
propagate unchanged. -/
theorem no_ivp_error (env : Env) :
    ∀ fuel ts lb opts er tr,
      verify_light_block env fuel ts lb opts = (.err er, tr) → carriesIVP er = false := by
  intro fuel
  induction fuel with
  | zero =>
    intro ts lb opts er tr hrun
    simp [verify_light_block] at hrun
  | succ fuel ih =>
    intro ts lb opts er tr hrun
    rw [verify_succ_eq] at hrun
    split at hrun
    · simp at hrun
    · split at hrun
      · simp at hrun
      · split at hrun
        rename_i ve heq2
        split at hrun
        · rcases hpb : performBisection env fuel ts lb opts with ⟨res, ptr⟩
          rw [hpb] at hrun
          dsimp only at hrun
          rw [Prod.mk.injEq] at hrun
          obtain ⟨hres, htr⟩ := hrun
          subst hres
          unfold performBisection at hpb
          split at hpb
          · simp at hpb
          · dsimp only at hpb
            split at hpb
            · rename_i e' hfe
              rw [request_fetch_ok] at hfe
              cases hfe
            · split at hpb
              · rename_i lchain ltr hleft
                split at hpb
                · simp at hpb
                · rename_i tmid hlast
                  split at hpb
                  · simp at hpb
                  · rename_i e2 rtr hright
                    rw [Prod.mk.injEq] at hpb
                    obtain ⟨h2, _⟩ := hpb
                    injection h2 with h3
                    subst h3
                    exact ih _ _ _ _ _ hright
                  · simp at hpb
                  · simp at hpb
              · rename_i e1 ltr hleft
                rw [Prod.mk.injEq] at hpb
                obtain ⟨h2, _⟩ := hpb
                injection h2 with h3
                subst h3
                exact ih _ _ _ _ _ hleft
              · simp at hpb
              · simp at hpb
        · rename_i hne
          rw [Prod.mk.injEq] at hrun
          obtain ⟨h1, _⟩ := hrun
          cases h1
          simp [carriesIVP, hne]

/-! ## Sorting and chain lemmas -/

/-- `sortByHeight` permutes its input. -/
theorem sortByHeight_perm (l : List TrustedState) : List.Perm (sortByHeight l) l :=
  List.perm_insertionSort tsle l

/-- `sortByHeight` sorts by `header.height`. -/
theorem sortByHeight_sorted (l : List TrustedState) : List.Sorted tsle (sortByHeight l) :=
  List.sorted_insertionSort tsle l

/-- Membership is preserved by `sortByHeight`. -/
theorem mem_sortByHeight {l : List TrustedState} {x : TrustedState} :
    x ∈ sortByHeight l ↔ x ∈ l :=
  List.mem_insertionSort tsle

/-- `sortByHeight` of a non-empty list is non-empty. -/
theorem sortByHeight_ne_nil {l : List TrustedState} (h : l ≠ []) : sortByHeight l ≠ [] := by
  intro hc
  apply h
  have hlen := (sortByHeight_perm l).length_eq
  rw [hc] at hlen
  exact List.eq_nil_of_length_eq_zero hlen.symm

/-- A list sorted by height whose heights are pairwise distinct is strictly
increasing by height. -/
theorem hchain_of_sorted_nodup {l : List TrustedState} (hs : List.Sorted tsle l)
    (hn : (l.map fun s => s.header.height).Nodup) : HChain l := by
  rw [HChain, List.chain'_iff_pairwise]
  have h2 : l.Pairwise fun a b : TrustedState => a.header.height ≠ b.header.height :=
    (List.pairwise_map).1 hn
  exact (hs.and h2).imp fun h => lt_of_le_of_ne h.1 h.2

/-- A strictly increasing list has pairwise distinct heights. -/
theorem hchain_nodup_heights {l : List TrustedState} (h : HChain l) :
    (l.map fun s => s.header.height).Nodup := by
  rw [HChain, List.chain'_iff_pairwise] at h
  exact (List.pairwise_map).2 (h.imp fun hab => Nat.ne_of_lt hab)

/-- The last element of a list is a member. -/
theorem getLast?_mem : ∀ {l : List TrustedState} {a : TrustedState},
    l.getLast? = some a → a ∈ l := by
  intro l
  induction l with
  | nil => intro a h; cases h
  | cons x t ih =>
    intro a h
    cases t with
    | nil =>
      rw [List.getLast?_singleton] at h
      cases h
      exact List.mem_singleton_self x
    | cons y t' =>
      rw [List.getLast?_cons_cons] at h
      exact List.mem_cons_of_mem x (ih h)

/-- In a strictly increasing list, an element of maximal height is the last
element. -/
theorem hchain_getLast_max : ∀ {l : List TrustedState}, HChain l → ∀ {z : TrustedState},
    z ∈ l → (∀ y ∈ l, y.header.height ≤ z.header.height) → l.getLast? = some z := by
  intro l
  induction l with
  | nil => intro _ z hz; exact absurd hz (List.not_mem_nil z)
  | cons a t ih =>
    intro hc z hz hmax
    cases t with
    | nil =>
      rw [List.mem_singleton] at hz
      subst hz
      rfl
    | cons b t' =>
      have hab : tslt a b := (List.chain'_cons.1 hc).1
      have hcb : HChain (b :: t') := (List.chain'_cons.1 hc).2
      have hz' : z ∈ b :: t' := by
        rcases List.mem_cons.1 hz with h | h
        · subst h
          have hb := hmax b (List.mem_cons_of_mem z (List.mem_cons_self b t'))
          exact absurd hab (Nat.not_lt.2 hb)
        · exact h
      rw [List.getLast?_cons_cons]
      exact ih hcb hz' fun y hy => hmax y (List.mem_cons_of_mem a hy)

/-- The canonical final state of a successful call targeting `lb` sits at
`lb.height`. -/
theorem canonical_height {env : Env} (hok : EnvOK env) {lb : LightBlock} (hinv : lbInv lb) :
    (canonical env lb).header.height = lb.height := by
  unfold canonical
  cases hs : env.store lb.height with
  | some s => exact hok.store_height _ _ hs
  | none => exact hinv

/-- Assembly of a bisection merge: if the left chain is strictly increasing
with heights at most `H`, the right chain is strictly increasing with heights
above `H`, every element is at most `B`, and the right chain contains an
element `z` at height `B`, then the sorted concatenation is strictly
increasing and ends with `z`. -/
theorem merged_hchain_getLast {lchain rchain : List TrustedState} {H B : Nat}
    (hl : HChain lchain) (hr : HChain rchain)
    (hlb : ∀ x ∈ lchain, x.header.height ≤ H)
    (hrb : ∀ x ∈ rchain, H < x.header.height)
    (hub : ∀ x, x ∈ rchain ++ lchain → x.header.height ≤ B)
    {z : TrustedState} (hz : z ∈ rchain) (hzB : z.header.height = B) :
    HChain (sortByHeight (rchain ++ lchain)) ∧
    (sortByHeight (rchain ++ lchain)).getLast? = some z := by
  have hnodup : ((rchain ++ lchain).map fun s => s.header.height).Nodup := by
    rw [List.map_append, List.nodup_append]
    refine ⟨hchain_nodup_heights hr, hchain_nodup_heights hl, ?_⟩
    intro y hy hy'
    rcases List.mem_map.1 hy with ⟨u, hu, rfl⟩
    rcases List.mem_map.1 hy' with ⟨v, hv, hvy⟩
    have h1 := hrb u hu
    have h2 := hlb v hv
    rw [hvy] at h2
    exact absurd (Nat.lt_of_lt_of_le h1 h2) (Nat.lt_irrefl _)
  have hperm : List.Perm (sortByHeight (rchain ++ lchain)) (rchain ++ lchain) :=
    sortByHeight_perm _
  have hnodup' : ((sortByHeight (rchain ++ lchain)).map fun s => s.header.height).Nodup :=
    ((hperm.map _).nodup_iff).2 hnodup
  have hchain : HChain (sortByHeight (rchain ++ lchain)) :=
    hchain_of_sorted_nodup (sortByHeight_sorted _) hnodup'
  refine ⟨hchain, hchain_getLast_max hchain ?_ ?_⟩
  · exact mem_sortByHeight.2 (List.mem_append.2 (Or.inl hz))
  · intro y hy
    have := hub y (mem_sortByHeight.1 hy)
    rw [hzB]
    exact this

/-- A call whose target is the canonically fetched block at the anchor's own
height, misses the store and fails direct verification with
`InsufficientVotingPower` can never return `Ok`: its bisection pivot equals
the target height, so the left recursion repeats the same call with less
fuel. -/
theorem verify_gap0_fetch_not_ok (env : Env) :
    ∀ fuel ts lb opts, env.store lb.height = none →
      env.verifier ts lb opts =
        .verificationFailed (.invalidLightBlock .insufficientVotingPower) →
      ts.header.height = lb.height →
      fetchBlock env lb.height = lb →
      ∀ chain tr, verify_light_block env fuel ts lb opts ≠ (.ok chain, tr) := by
  intro fuel
  induction fuel with
  | zero =>
    intro ts lb opts _ _ _ _ chain tr h
    simp [verify_light_block] at h
  | succ fuel ih =>
    intro ts lb opts hstore hv hgap hfetch chain tr h
    rw [verify_succ_eq, hstore, hv] at h
    dsimp only at h
    rw [if_pos rfl] at h
    rcases hpb : performBisection env fuel ts lb opts with ⟨res, ptr⟩
    rw [hpb] at h
    dsimp only at h
    rw [Prod.mk.injEq] at h
    obtain ⟨hres, _⟩ := h
    unfold performBisection at hpb
    cases hadd : checkedAdd ts.header.height lb.height with
    | none =>
      rw [hadd] at hpb
      cases hpb
      exact Outcome.noConfusion hres
    | some s =>
      rw [hadd] at hpb
      dsimp only at hpb
      have hs_eq : s = ts.header.height + lb.height := by
        unfold checkedAdd at hadd
        split at hadd
        · injection hadd with h'
          exact h'.symm
        · cases hadd
      have hs2 : s / 2 = lb.height := by
        rw [hs_eq, hgap]
        omega
      rw [request_fetch_ok] at hpb
      dsimp only at hpb
      rw [hs2, hfetch] at hpb
      rcases hleft : verify_light_block env fuel ts lb opts with ⟨lres, ltr⟩
      rw [hleft] at hpb
      cases lres with
      | ok lchain => exact ih ts lb opts hstore hv hgap hfetch lchain ltr hleft
      | err e =>
        cases hpb
        exact Outcome.noConfusion hres
      | panic m =>
        cases hpb
        exact Outcome.noConfusion hres
      | diverge =>
        cases hpb
        exact Outcome.noConfusion hres

/-- The main invariant of successful `verify_light_block` runs, by induction
on fuel, under the collaborator contracts `EnvOK`.  For every run returning
`Ok chain` on an internally consistent target:
(A) if the anchor is not above the target, the chain is non-empty with all
    heights between the anchor's and the target's;
(B) if the anchor is strictly below the target, the chain is strictly
    increasing by height and ends with `canonical env lb`;
(C) a call at gap zero whose target is the canonically fetched block returns
    exactly `[canonical env lb]`;
(D) if the anchor is the canonical state of its own height and strictly
    below the target, every chain element is strictly above the anchor.
Bundled with it (same induction): a gap-one call anchored at the canonical
state of its own height that misses the store and fails direct verification
with `InsufficientVotingPower` never returns `Ok`. -/
theorem verify_ok_invariants (env : Env) (hok : EnvOK env) : ∀ fuel : Nat,
    (∀ ts lb opts chain tr, verify_light_block env fuel ts lb opts = (.ok chain, tr) →
      lbInv lb →
      ((ts.header.height ≤ lb.height →
          chain ≠ [] ∧ ∀ x ∈ chain,
            ts.header.height ≤ x.header.height ∧ x.header.height ≤ lb.height) ∧
       (ts.header.height < lb.height →
          HChain chain ∧ chain.getLast? = some (canonical env lb)) ∧
       (ts.header.height = lb.height → lb = fetchBlock env lb.height →
          chain = [canonical env lb]) ∧
       (ts = canonAt env ts.header.height → ts.header.height < lb.height →
          ∀ x ∈ chain, ts.header.height < x.header.height))) ∧
    (∀ ts lb opts, env.store lb.height = none →
      env.verifier ts lb opts =
        .verificationFailed (.invalidLightBlock .insufficientVotingPower) →
      ts.header.height + 1 = lb.height →
      ts = canonAt env ts.header.height →
      ∀ chain tr, verify_light_block env fuel ts lb opts ≠ (.ok chain, tr)) := by
  intro fuel
  induction fuel with
  | zero =>
    constructor
    · intro ts lb opts chain tr hrun
      simp [verify_light_block] at hrun
    · intro ts lb opts _ _ _ _ chain tr hrun
      simp [verify_light_block] at hrun
  | succ fuel ih =>
    obtain ⟨ihMain, ihG⟩ := ih
    have hG1 : ∀ ts lb opts, env.store lb.height = none →
        env.verifier ts lb opts =
          .verificationFailed (.invalidLightBlock .insufficientVotingPower) →
        ts.header.height + 1 = lb.height →
        ts = canonAt env ts.header.height →
        ∀ chain tr, verify_light_block env (fuel + 1) ts lb opts ≠ (.ok chain, tr) := by
      intro ts lb opts hstore hv hgap hcanon chain tr hrun
      rw [verify_succ_eq, hstore, hv] at hrun
      dsimp only at hrun
      rw [if_pos rfl] at hrun
      rcases hpb : performBisection env fuel ts lb opts with ⟨res, ptr⟩
      rw [hpb] at hrun
      dsimp only at hrun
      rw [Prod.mk.injEq] at hrun
      obtain ⟨hres, _⟩ := hrun
      unfold performBisection at hpb
      cases hadd : checkedAdd ts.header.height lb.height with
      | none =>
        rw [hadd] at hpb
        cases hpb
        exact Outcome.noConfusion hres
      | some s =>
        rw [hadd] at hpb
        dsimp only at hpb
        have hs_eq : s = ts.header.height + lb.height := by
          unfold checkedAdd at hadd
          split at hadd
          · injection hadd with h'
            exact h'.symm
          · cases hadd
        have hs2 : s / 2 = ts.header.height := by
          have h1 : s = ts.header.height + (ts.header.height + 1) := by
            rw [hs_eq, hgap]
          omega
        rw [request_fetch_ok] at hpb
        dsimp only at hpb
        rw [hs2] at hpb
        rcases hleft : verify_light_block env fuel ts (fetchBlock env ts.header.height) opts
          with ⟨lres, ltr⟩
        rw [hleft] at hpb
        cases lres with
        | ok lchain =>
          dsimp only at hpb
          have hfh : (fetchBlock env ts.header.height).height = ts.header.height :=
            hok.fetch_height _
          have hfinv : lbInv (fetchBlock env ts.header.height) := hok.fetch_inv _
          have hC := (ihMain ts (fetchBlock env ts.header.height) opts lchain ltr
            hleft hfinv).2.2.1
          have hchainC : lchain = [canonical env (fetchBlock env ts.header.height)] := by
            apply hC
            · rw [hfh]
            · rw [hfh]
          rw [hchainC] at hpb
          rw [List.getLast?_singleton] at hpb
          dsimp only at hpb
          have hmid : canonical env (fetchBlock env ts.header.height) = ts := by
            conv_rhs => rw [hcanon]
            rfl
          rw [hmid] at hpb
          rcases hright : verify_light_block env fuel ts lb opts with ⟨rres, rtr⟩
          rw [hright] at hpb
          cases rres with
          | ok rchain => exact ihG ts lb opts hstore hv hgap hcanon rchain rtr hright
          | err e =>
            cases hpb
            exact Outcome.noConfusion hres
          | panic m =>
            cases hpb
            exact Outcome.noConfusion hres
          | diverge =>
            cases hpb
            exact Outcome.noConfusion hres
        | err e =>
          cases hpb
          exact Outcome.noConfusion hres
        | panic m =>
          cases hpb
          exact Outcome.noConfusion hres
        | diverge =>
          cases hpb
          exact Outcome.noConfusion hres
    refine ⟨?_, hG1⟩
    intro ts lb opts chain tr hrun hinv
    have hrun0 := hrun
    rw [verify_succ_eq] at hrun
    cases hstore : env.store lb.height with
    | some s0 =>
      rw [hstore] at hrun
      dsimp only at hrun
      rw [Prod.mk.injEq] at hrun
      obtain ⟨hres, _⟩ := hrun
      injection hres with hchain
      subst hchain
      have hs0 : s0.header.height = lb.height := hok.store_height _ _ hstore
      have hcan : canonical env lb = s0 := by
        unfold canonical
        rw [hstore]
      refine ⟨fun hle => ?_, fun hlt => ?_, fun _ _ => ?_, fun _ hlt x hx => ?_⟩
      · refine ⟨List.cons_ne_nil _ _, ?_⟩
        intro x hx
        rw [List.mem_singleton] at hx
        subst hx
        rw [hs0]
        exact ⟨hle, Nat.le_refl _⟩
      · exact ⟨List.chain'_singleton _, by rw [hcan, List.getLast?_singleton]⟩
      · rw [hcan]
      · rw [List.mem_singleton] at hx
        subst hx
        rw [hs0]
        exact hlt
    | none =>
      rw [hstore] at hrun
      cases hv : env.verifier ts lb opts with
      | verificationSucceeded ts2 =>
        rw [hv] at hrun
        dsimp only at hrun
        rw [Prod.mk.injEq] at hrun
        obtain ⟨hres, _⟩ := hrun
        injection hres with hchain
        subst hchain
        have hts2 : ts2 = tsOf lb := hok.verifier_ok _ _ _ _ hv
        subst hts2
        have hh : (tsOf lb).header.height = lb.height := hinv
        have hcan : canonical env lb = tsOf lb := by
          unfold canonical
          rw [hstore]
        refine ⟨fun hle => ?_, fun hlt => ?_, fun _ _ => ?_, fun _ hlt x hx => ?_⟩
        · refine ⟨List.cons_ne_nil _ _, ?_⟩
          intro x hx
          rw [List.mem_singleton] at hx
          subst hx
          rw [hh]
          exact ⟨hle, Nat.le_refl _⟩
        · exact ⟨List.chain'_singleton _, by rw [hcan, List.getLast?_singleton]⟩
        · rw [hcan]
        · rw [List.mem_singleton] at hx
          subst hx
          rw [hh]
          exact hlt
      | verificationFailed e =>
        rw [hv] at hrun
        dsimp only at hrun
        cases e with
        | invalidLightBlock ve =>
          by_cases hive : ve = VerificationError.insufficientVotingPower
          · subst hive
            rw [if_pos rfl] at hrun
            rcases hpb : performBisection env fuel ts lb opts with ⟨res, ptr⟩
            rw [hpb] at hrun
            dsimp only at hrun
            rw [Prod.mk.injEq] at hrun
            obtain ⟨hres, _⟩ := hrun
            unfold performBisection at hpb
            cases hadd : checkedAdd ts.header.height lb.height with
            | none =>
              rw [hadd] at hpb
              cases hpb
              exact absurd hres.symm (by intro h; cases h)
            | some s =>
              rw [hadd] at hpb
              dsimp only at hpb
              have hs_eq : s = ts.header.height + lb.height := by
                unfold checkedAdd at hadd
                split at hadd
                · injection hadd with h'
                  exact h'.symm
                · cases hadd
              rw [request_fetch_ok] at hpb
              dsimp only at hpb
              rcases hleft : verify_light_block env fuel ts (fetchBlock env (s / 2)) opts
                with ⟨lres, ltr⟩
              rw [hleft] at hpb
              cases lres with
              | ok lchain =>
                dsimp only at hpb
                cases hlast : lchain.getLast? with
                | none =>
                  rw [hlast] at hpb
                  cases hpb
                  exact absurd hres.symm (by intro h; cases h)
                | some tmid =>
                  rw [hlast] at hpb
                  dsimp only at hpb
                  rcases hright : verify_light_block env fuel tmid lb opts with ⟨rres, rtr⟩
                  rw [hright] at hpb
                  cases rres with
                  | ok rchain =>
                    dsimp only at hpb
                    cases hpb
                    injection hres with hchain
                    subst hchain
                    have hfh : (fetchBlock env (s / 2)).height = s / 2 :=
                      hok.fetch_height _
                    have hfinv : lbInv (fetchBlock env (s / 2)) := hok.fetch_inv _
                    have ihL := ihMain ts (fetchBlock env (s / 2)) opts lchain ltr hleft hfinv
                    have ihR := ihMain tmid lb opts rchain rtr hright hinv
                    have htmid_mem : tmid ∈ lchain := getLast?_mem hlast
                    refine ⟨?_, ?_, ?_, ?_⟩
                    · -- (A) bounds
                      intro hle
                      have hple : ts.header.height ≤ s / 2 := by omega
                      have hpub : s / 2 ≤ lb.height := by omega
                      obtain ⟨hlne, hlbnd⟩ := ihL.1 (by rw [hfh]; exact hple)
                      have htb := hlbnd tmid htmid_mem
                      rw [hfh] at htb
                      obtain ⟨hrne, hrbnd⟩ := ihR.1 (Nat.le_trans htb.2 hpub)
                      constructor
                      · apply sortByHeight_ne_nil
                        intro hc
                        exact hlne (List.append_eq_nil.1 hc).2
                      · intro x hx
                        rcases List.mem_append.1 (mem_sortByHeight.1 hx) with hxr | hxl
                        · have hb := hrbnd x hxr
                          exact ⟨Nat.le_trans htb.1 hb.1, hb.2⟩
                        · have hb := hlbnd x hxl
                          rw [hfh] at hb
                          exact ⟨hb.1, Nat.le_trans hb.2 hpub⟩
                    · -- (B) strict chain and last element
                      intro hlt
                      have hple : ts.header.height ≤ s / 2 := by omega
                      have hpltb : s / 2 < lb.height := by omega
                      have hlbnd := (ihL.1 (by rw [hfh]; exact hple)).2
                      have htmid_eq : tmid = canonical env (fetchBlock env (s / 2)) := by
                        rcases Nat.lt_or_ge ts.header.height (s / 2) with hap | hap
                        · obtain ⟨_, hllast⟩ := ihL.2.1 (by rw [hfh]; exact hap)
                          have h0 := hlast.symm.trans hllast
                          injection h0
                        · have hpa : s / 2 = ts.header.height :=
                            Nat.le_antisymm hap hple
                          have hC_L := ihL.2.2.1 (by rw [hfh]; exact hpa.symm)
                            (by conv_lhs => rw [← hfh])
                          rw [hC_L, List.getLast?_singleton] at hlast
                          injection hlast with h0
                          exact h0.symm
                      have hlch : HChain lchain := by
                        rcases Nat.lt_or_ge ts.header.height (s / 2) with hap | hap
                        · exact (ihL.2.1 (by rw [hfh]; exact hap)).1
                        · have hpa : s / 2 = ts.header.height :=
                            Nat.le_antisymm hap hple
                          have hC_L := ihL.2.2.1 (by rw [hfh]; exact hpa.symm)
                            (by conv_lhs => rw [← hfh])
                          rw [hC_L]
                          exact List.chain'_singleton _
                      have htmid_h : tmid.header.height = s / 2 := by
                        rw [htmid_eq]
                        exact (canonical_height hok hfinv).trans hfh
                      have htmid_canon : tmid = canonAt env tmid.header.height := by
                        rw [htmid_h, htmid_eq]
                        rfl
                      have hD_R := ihR.2.2.2 htmid_canon (by rw [htmid_h]; exact hpltb)
                      obtain ⟨hrch, hrlast⟩ := ihR.2.1 (by rw [htmid_h]; exact hpltb)
                      have hrbnd := (ihR.1 (by rw [htmid_h]; exact Nat.le_of_lt hpltb)).2
                      have hz : canonical env lb ∈ rchain := getLast?_mem hrlast
                      have hzB : (canonical env lb).header.height = lb.height :=
                        canonical_height hok hinv
                      exact merged_hchain_getLast hlch hrch
                        (fun x hx => by have := (hlbnd x hx).2; rw [hfh] at this; exact this)
                        (fun x hx => by have := hD_R x hx; rw [htmid_h] at this; exact this)
                        (fun x hx => by
                          rcases List.mem_append.1 hx with hxr | hxl
                          · exact (hrbnd x hxr).2
                          · have := (hlbnd x hxl).2
                            rw [hfh] at this
                            exact Nat.le_trans this (Nat.le_of_lt hpltb))
                        hz hzB
                    · -- (C) contradiction: gap-zero canonical target cannot bisect to Ok
                      intro heq hfetch
                      exact absurd hrun0 (verify_gap0_fetch_not_ok env (fuel + 1) ts lb opts
                        hstore hv heq hfetch.symm _ tr)
                    · -- (D) strict lower bound for a canonical anchor
                      intro hcanon hlt
                      rcases Nat.lt_or_ge ts.header.height (s / 2) with hap | hap
                      · have hD_L := ihL.2.2.2 hcanon (by rw [hfh]; exact hap)
                        have htmid_gt : ts.header.height < tmid.header.height :=
                          hD_L tmid htmid_mem
                        have hple : ts.header.height ≤ s / 2 := Nat.le_of_lt hap
                        have htb := ((ihL.1 (by rw [hfh]; exact hple)).2 tmid htmid_mem).2
                        rw [hfh] at htb
                        have hpub : s / 2 ≤ lb.height := by omega
                        have hrbnd := (ihR.1 (Nat.le_trans htb hpub)).2
                        intro x hx
                        rcases List.mem_append.1 (mem_sortByHeight.1 hx) with hxr | hxl
                        · exact Nat.lt_of_lt_of_le htmid_gt (hrbnd x hxr).1
                        · exact hD_L x hxl
                      · have hgap1 : ts.header.height + 1 = lb.height := by omega
                        exact absurd hrun0 (hG1 ts lb opts hstore hv hgap1 hcanon _ tr)
                  | err e2 =>
                    cases hpb
                    exact absurd hres.symm (by intro h; cases h)
                  | panic m =>
                    cases hpb
                    exact absurd hres.symm (by intro h; cases h)
                  | diverge =>
                    cases hpb
                    exact absurd hres.symm (by intro h; cases h)
              | err e1 =>
                cases hpb
                exact absurd hres.symm (by intro h; cases h)
              | panic m =>
                cases hpb
                exact absurd hres.symm (by intro h; cases h)
              | diverge =>
                cases hpb
                exact absurd hres.symm (by intro h; cases h)
          · rw [if_neg hive] at hrun
            rw [Prod.mk.injEq] at hrun
            obtain ⟨hres, _⟩ := hrun
            exact absurd hres.symm (by intro h; cases h)

/-! ## Claims -/

/-- Claim C1 (counterexample).  With environment A — which satisfies every
collaborator contract — and `T₀ = t0A` at height 10, `L = mkLightBlock 11`
(so `T₀.header.height < L.height`), `verify` returns `Ok` with a chain whose
first element is the stored state at height 10: its height is not strictly
greater than `T₀.header.height`, refuting the claimed
`s₁.header.height > T₀.header.height`. -/
theorem c1_counterexample :
    EnvOK envA ∧
    t0A.header.height < (mkLightBlock 11).height ∧
    (verify_light_block envA 5 t0A (mkLightBlock 11) opts0).1 =
      Outcome.ok [s10A, tsOf (mkLightBlock 11)] ∧
    ¬ t0A.header.height < s10A.header.height :=
  ⟨envA_ok, by decide, by decide, by decide⟩

/-- Claim C2: when the trusted store misses and the direct Verifier query
fails with kind `ve`, then (i) if `ve` is not `InsufficientVotingPower`,
`verify` returns `Err(InvalidLightBlock(ve))` having issued exactly the one
Verifier query and no Fetcher query; (ii) if `ve` is
`InsufficientVotingPower`, `verify` proceeds exactly as `perform_bisection`;
and (iii) no error returned by any `verify` invocation against this
environment carries the `InsufficientVotingPower` kind. -/
theorem c2_error_classification (env : Env) (fuel : Nat) (ts : TrustedState)
    (lb : LightBlock) (opts : VerificationOptions) (ve : VerificationError)
    (hstore : env.store lb.height = none)
    (hv : env.verifier ts lb opts = .verificationFailed (.invalidLightBlock ve)) :
    (ve ≠ VerificationError.insufficientVotingPower →
      verify_light_block env (fuel + 1) ts lb opts =
        (.err (.invalidLightBlock (.invalidLightBlock ve)), [Query.verifier ts lb opts])) ∧
    (ve = VerificationError.insufficientVotingPower →
      verify_light_block env (fuel + 1) ts lb opts =
        ((performBisection env fuel ts lb opts).1,
          Query.verifier ts lb opts :: (performBisection env fuel ts lb opts).2)) ∧
    (∀ fuel' ts' lb' opts' er tr,
      verify_light_block env fuel' ts' lb' opts' = (.err er, tr) →
        carriesIVP er = false) := by
  refine ⟨fun hne => ?_, fun he => ?_, fun fuel' ts' lb' opts' er tr h => no_ivp_error env fuel' ts' lb' opts' er tr h⟩
  · rw [verify_succ_eq, hstore, hv]
    dsimp only
    rw [if_neg hne]
  · subst he
    rw [verify_succ_eq, hstore, hv]
    dsimp only
    rw [if_pos rfl]

/-- Claim C2 (witness): a concrete run in which the Verifier reports the
fatal kind `InvalidCommit`: `verify` surfaces it with a single Verifier
query and no Fetcher query. -/
theorem c2_error_classification_witness :
    envBad.store (mkLightBlock 11).height = none ∧
    envBad.verifier t0A (mkLightBlock 11) opts0 =
      .verificationFailed (.invalidLightBlock .invalidCommit) ∧
    verify_light_block envBad 1 t0A (mkLightBlock 11) opts0 =
      (.err (.invalidLightBlock (.invalidLightBlock .invalidCommit)),
        [Query.verifier t0A (mkLightBlock 11) opts0]) :=
  ⟨by decide, by decide,
    (c2_error_classification envBad 0 t0A (mkLightBlock 11) opts0 .invalidCommit
      (by decide) (by decide)).1 (by decide)⟩

/-- Claim C3: a trusted-store hit at the target height returns exactly the
stored state as a one-element chain, with no Verifier and no Fetcher
query. -/
theorem c3_store_shortcut (env : Env) (fuel : Nat) (ts : TrustedState) (lb : LightBlock)
    (opts : VerificationOptions) (s : TrustedState)
    (hstore : env.store lb.height = some s) :
    verify_light_block env (fuel + 1) ts lb opts = (.ok [s], []) := by
  rw [verify_succ_eq, hstore]

/-- Claim C3 (witness): the store of environment A holds `s10A` at height
10, and `verify` on a target at height 10 returns `[s10A]` with an empty
query trace. -/
theorem c3_store_shortcut_witness :
    envA.store (mkLightBlock 10).height = some s10A ∧
    verify_light_block envA 3 t0A (mkLightBlock 10) opts0 = (.ok [s10A], []) :=
  ⟨by decide, c3_store_shortcut envA 2 t0A (mkLightBlock 10) opts0 s10A (by decide)⟩

/-- Claim C4 (code evaluation): with `T₀.header.height = 20 ≥ 10 = L.height`
and a store miss, `verify_light_block` performs no input check: it issues
the direct Verifier query and here returns `Ok` — there is no
`InvalidInput` error (and `SchedulerError` has no such variant). -/
theorem c4_no_invalid_input_check :
    (mkLightBlock 10).height ≤ t20.header.height ∧
    envYes.store (mkLightBlock 10).height = none ∧
    verify_light_block envYes 1 t20 (mkLightBlock 10) opts0 =
      (.ok [tsOf (mkLightBlock 10)], [Query.verifier t20 (mkLightBlock 10) opts0]) := by
  decide

/-- Claim C5 (code evaluation): with `H_t = 2^64 − 1` and `H_u = 1` the
pivot sum `H_t + H_u` overflows `u64`; `verify_light_block` panics with the
source's `expect("height overflow")` message instead of returning a
`HeightOverflow` error (no such `SchedulerError` variant exists). -/
theorem c5_overflow_panics :
    checkedAdd tsMax.header.height (mkLightBlock 1).height = none ∧
    verify_light_block envIVP 2 tsMax (mkLightBlock 1) opts0 =
      (.panic "height overflow", [Query.verifier tsMax (mkLightBlock 1) opts0]) := by
  decide

/-- Claim C6 (code evaluation): a fetch failure is unrepresentable in the
code: `RpcResponse` has only the `FetchedLightBlock` variant,
`SchedulerError` has only the `InvalidLightBlock` variant (so no
`FetchFailed`), and `request_fetch_light_block` always returns the fetched
block. -/
theorem c6_fetch_failure_unrepresentable :
    (∀ r : RpcResponse, ∃ lb, r = RpcResponse.fetchedLightBlock lb) ∧
    (∀ e : SchedulerError, ∃ ve, e = SchedulerError.invalidLightBlock ve) ∧
    (∀ env h, request_fetch_light_block env h = .ok (fetchBlock env h)) := by
  refine ⟨fun r => ?_, fun e => ?_, fun env h => request_fetch_ok env h⟩
  · cases r with
    | fetchedLightBlock lb => exact ⟨lb, rfl⟩
  · cases e with
    | invalidLightBlock ve => exact ⟨ve, rfl⟩

/-- Claim C8: within one bisection step, whatever the left recursion does
comes first: (i) if the left recursion (from `T₀` to the pivot block) fails
with an error, `verify` returns exactly that error and the trace contains no
query of the right recursion; (ii) if the left recursion succeeds, the
result is the merge with the right recursion's outcome and the trace lists
the direct query, the pivot fetch, all left-recursion queries, and then all
right-recursion queries, in that order. -/
theorem c8_left_before_right (env : Env) (fuel : Nat) (ts : TrustedState) (lb : LightBlock)
    (opts : VerificationOptions) (s : Nat)
    (hstore : env.store lb.height = none)
    (hv : env.verifier ts lb opts =
      .verificationFailed (.invalidLightBlock .insufficientVotingPower))
    (hadd : checkedAdd ts.header.height lb.height = some s) :
    (∀ er ltr,
        verify_light_block env fuel ts (fetchBlock env (s / 2)) opts = (.err er, ltr) →
        verify_light_block env (fuel + 1) ts lb opts =
          (.err er, Query.verifier ts lb opts :: Query.fetch (s / 2) :: ltr)) ∧
    (∀ lchain ltr tmid,
        verify_light_block env fuel ts (fetchBlock env (s / 2)) opts = (.ok lchain, ltr) →
        lchain.getLast? = some tmid →
        verify_light_block env (fuel + 1) ts lb opts =
          (mergeOutcome (verify_light_block env fuel tmid lb opts).1 lchain,
            Query.verifier ts lb opts :: Query.fetch (s / 2) ::
              (ltr ++ (verify_light_block env fuel tmid lb opts).2))) := by
  constructor
  · intro er ltr hleft
    rw [verify_succ_eq, hstore, hv]
    dsimp only
    rw [if_pos rfl]
    unfold performBisection
    rw [hadd]
    dsimp only
    rw [request_fetch_ok]
    dsimp only
    rw [hleft]
  · intro lchain ltr tmid hleft hlast
    rw [verify_succ_eq, hstore, hv]
    dsimp only
    rw [if_pos rfl]
    unfold performBisection
    rw [hadd]
    dsimp only
    rw [request_fetch_ok]
    dsimp only
    rw [hleft]
    dsimp only
    rw [hlast]
    dsimp only
    rcases hr : verify_light_block env fuel tmid lb opts with ⟨rres, rtr⟩
    cases rres <;> rfl

/-- Claim C8 (witness): the spec's "recoverable then fatal" scenario — the
direct query on the target at height 20 is recoverable, the left recursion
on the fetched pivot at height 15 fails fatally, and `verify` surfaces that
error with no right-recursion query. -/
theorem c8_left_before_right_witness :
    verify_light_block envLeftFail 2 t0A (mkLightBlock 20) opts0 =
      (.err (.invalidLightBlock (.invalidLightBlock .invalidValidatorSet)),
        [Query.verifier t0A (mkLightBlock 20) opts0, Query.fetch 15,
          Query.verifier t0A (mkLightBlock 15) opts0]) :=
  (c8_left_before_right envLeftFail 1 t0A (mkLightBlock 20) opts0 30
      (by decide) (by decide) (by decide)).1
    (.invalidLightBlock (.invalidLightBlock .invalidValidatorSet))
    [Query.verifier t0A (mkLightBlock 15) opts0] (by decide)

/-- Claim C1 (amended): for every `verify` invocation against collaborators
satisfying their contracts (`EnvOK`), with an internally consistent target
and `T₀.header.height < L.height`, a successful run returns a non-empty
chain, strictly increasing by `header.height`, whose elements all lie
between `T₀.header.height` and `L.height` (so
`s₁.header.height ≥ T₀.header.height`, with equality possible, as the
counterexample shows) and whose last element sits exactly at `L.height`. -/
theorem c1_chain_shape_amended (env : Env) (hok : EnvOK env) (fuel : Nat)
    (ts : TrustedState) (lb : LightBlock) (opts : VerificationOptions)
    (chain : List TrustedState) (tr : List Query)
    (hrun : verify_light_block env fuel ts lb opts = (.ok chain, tr))
    (hinv : lbInv lb) (hlt : ts.header.height < lb.height) :
    chain ≠ [] ∧ HChain chain ∧
    (∀ x ∈ chain, ts.header.height ≤ x.header.height ∧ x.header.height ≤ lb.height) ∧
    ∃ z, chain.getLast? = some z ∧ z.header.height = lb.height := by
  obtain ⟨hA, hB, _, _⟩ := (verify_ok_invariants env hok fuel).1 ts lb opts chain tr hrun hinv
  obtain ⟨hne, hbnd⟩ := hA (Nat.le_of_lt hlt)
  obtain ⟨hch, hlast⟩ := hB hlt
  exact ⟨hne, hch, hbnd, canonical env lb, hlast, canonical_height hok hinv⟩

/-- Claim C1 (witness): the amended postcondition evaluated on the
environment A run of the counterexample. -/
theorem c1_chain_shape_amended_witness :
    [s10A, tsOf (mkLightBlock 11)] ≠ [] ∧ HChain [s10A, tsOf (mkLightBlock 11)] ∧
    (∀ x ∈ [s10A, tsOf (mkLightBlock 11)],
      t0A.header.height ≤ x.header.height ∧ x.header.height ≤ (mkLightBlock 11).height) ∧
    ∃ z, [s10A, tsOf (mkLightBlock 11)].getLast? = some z ∧
      z.header.height = (mkLightBlock 11).height :=
  c1_chain_shape_amended envA envA_ok 5 t0A (mkLightBlock 11) opts0
    [s10A, tsOf (mkLightBlock 11)]
    [Query.verifier t0A (mkLightBlock 11) opts0, Query.fetch 10,
      Query.verifier s10A (mkLightBlock 11) opts0]
    (by decide) rfl (by decide)

/-- Every event produced by the traversal concerns either the directory
itself (a read error) or a path extending it by a first component that does
not start with an underscore. -/
theorem run_foreach_path_shape (fs : Fs) : ∀ fuel dir ev,
    ev ∈ run_foreach_in_dir fs fuel dir →
    eventPath ev = dir ∨
      ∃ c rest, eventPath ev = dir ++ c :: rest ∧ strStartsWith c "_" = false := by
  intro fuel
  induction fuel with
  | zero =>
    intro dir ev hev
    simp [run_foreach_in_dir] at hev
  | succ fuel ih =>
    intro dir ev hev
    rw [run_foreach_in_dir] at hev
    cases hread : fs.read_dir dir with
    | none =>
      rw [hread] at hev
      rw [List.mem_singleton] at hev
      subst hev
      exact Or.inl rfl
    | some entries =>
      rw [hread] at hev
      rcases List.mem_flatMap.1 hev with ⟨entry, _, hev'⟩
      by_cases hu : strStartsWith entry.name "_" = true
      · rw [if_pos hu] at hev'
        cases hev'
      · rw [if_neg hu] at hev'
        rw [Bool.not_eq_true] at hu
        cases hkind : entry.kind with
        | file =>
          rw [hkind] at hev'
          by_cases hj : strEndsWith entry.name ".json" = true
          · rw [if_pos hj] at hev'
            rw [List.mem_singleton] at hev'
            subst hev'
            exact Or.inr ⟨entry.name, [], rfl, hu⟩
          · rw [if_neg hj] at hev'
            cases hev'
        | symlink =>
          rw [hkind] at hev'
          by_cases hj : strEndsWith entry.name ".json" = true
          · rw [if_pos hj] at hev'
            rw [List.mem_singleton] at hev'
            subst hev'
            exact Or.inr ⟨entry.name, [], rfl, hu⟩
          · rw [if_neg hj] at hev'
            cases hev'
        | dir =>
          rw [hkind] at hev'
          rcases ih (dir ++ [entry.name]) ev hev' with h | ⟨c, rest, hpath, hc⟩
          · exact Or.inr ⟨entry.name, [], by rw [h], hu⟩
          · exact Or.inr ⟨entry.name, c :: rest, by rw [hpath, List.append_assoc]; rfl, hu⟩

/-- `pathExtends` distributes over a common prefix. -/
theorem pathExtends_append_both : ∀ (p a b : List String),
    pathExtends (p ++ a) (p ++ b) = pathExtends a b := by
  intro p
  induction p with
  | nil => intro a b; rfl
  | cons d ds ih =>
    intro a b
    show (d = d && pathExtends (ds ++ a) (ds ++ b)) = pathExtends a b
    rw [ih]
    simp

/-- A strictly longer path is not a prefix. -/
theorem pathExtends_longer : ∀ (p : List String) (x : String),
    pathExtends (p ++ [x]) p = false := by
  intro p
  induction p with
  | nil => intro x; rfl
  | cons d ds ih =>
    intro x
    show (d = d && pathExtends (ds ++ [x]) ds) = false
    rw [ih]
    simp

/-- Claim C9: an entry of a traversed directory whose final path component
starts with `'_'` contributes nothing to the traversal: no event — neither a
test run nor a read error, at that path or below it — concerns a path
extending the entry's path. -/
theorem c9_underscore_skipped (fs : Fs) (fuel : Nat) (dir : List String)
    (entries : List FsEntry) (e : FsEntry)
    (hread : fs.read_dir dir = some entries) (he : e ∈ entries)
    (hund : strStartsWith e.name "_" = true) :
    ∀ ev ∈ run_foreach_in_dir fs fuel dir,
      pathExtends (dir ++ [e.name]) (eventPath ev) = false := by
  intro ev hev
  rcases run_foreach_path_shape fs fuel dir ev hev with h | ⟨c, rest, hpath, hc⟩
  · rw [h]
    exact pathExtends_longer dir e.name
  · rw [hpath, pathExtends_append_both]
    have hne : e.name ≠ c := by
      intro hh
      rw [hh, hc] at hund
      cases hund
    show (e.name = c && pathExtends [] rest) = false
    simp [hne]

/-- Claim C9 (witness): in the concrete filesystem `fsW`, whose root holds
the directory `_skip`, the traversal's only event is the run of `a.json`,
and its path does not extend `_skip`'s path. -/
theorem c9_underscore_skipped_witness :
    pathExtends ([] ++ ["_skip"])
      (eventPath (HarnessEvent.ranFile ["a.json"])) = false :=
  c9_underscore_skipped fsW 3 [] [⟨"_skip", .dir⟩, ⟨"a.json", .file⟩, ⟨"b.txt", .file⟩]
    ⟨"_skip", .dir⟩ (by decide) (by decide) (by decide)
    (HarnessEvent.ranFile ["a.json"]) (by decide)

/-- Claim C10: `Requester::fetch_signed_header` treats height 0 as a request
for the latest commit — it queries `latest_commit` and returns that signed
header — while every positive height queries `commit` at exactly that
height. -/
theorem c10_height_zero_latest (c : Requester) :
    (fetch_signed_header c 0).2 = RpcCall.latestCommit ∧
    (∀ r, c.rpc_client.latest_commit = .ok r →
      (fetch_signed_header c 0).1 = some r.signed_header) ∧
    (∀ h, 0 < h → (fetch_signed_header c h).2 = RpcCall.commit h) := by
  refine ⟨?_, fun r hr => ?_, fun h hh => ?_⟩
  · unfold fetch_signed_header
    cases c.rpc_client.latest_commit <;> rfl
  · unfold fetch_signed_header
    rw [hr]
  · cases h with
    | zero => exact absurd hh (Nat.lt_irrefl 0)
    | succ n =>
      unfold fetch_signed_header
      cases c.rpc_client.commit (n + 1) <;> rfl

/-- Claim C10 (witness): the concrete client `clientW` at heights 0 and 5. -/
theorem c10_height_zero_latest_witness :
    (fetch_signed_header clientW 0).2 = RpcCall.latestCommit ∧
    (fetch_signed_header clientW 5).2 = RpcCall.commit 5 :=
  ⟨(c10_height_zero_latest clientW).1,
    (c10_height_zero_latest clientW).2.2 5 (by decide)⟩

/-- The termination-scenario environment satisfies the collaborator
contracts. -/
theorem adjacentEnv_ok : EnvOK adjacentEnv := by
  refine ⟨?_, ?_, ?_, ?_⟩
  · intro h s hs
    cases hs
  · intro ts lb opts ts' hv
    simp only [adjacentEnv] at hv
    split at hv
    · cases hv
      rfl
    · cases hv
  · intro h
    rfl
  · intro h
    rfl

/-- Claim C7: with an empty store, a Fetcher that always returns a block at
the requested height and a Verifier that accepts exactly height gaps of at
most 1 (failing wider gaps with `InsufficientVotingPower`), `verify` on a
gap of `d ≥ 1` terminates within recursion depth `⌈log₂ d⌉ + 1`: run with
fuel `⌈log₂ d⌉ + 2` (the root call plus `⌈log₂ d⌉ + 1` nested recursive
calls) it never exhausts its fuel, i.e. never yields `diverge`. -/
theorem c7_termination : ∀ d : Nat, ∀ ts lb opts fuel, 1 ≤ d →
    lb.height = ts.header.height + d →
    lbInv lb →
    Nat.clog 2 d + 2 ≤ fuel →
    (verify_light_block adjacentEnv fuel ts lb opts).1 ≠ Outcome.diverge := by
  intro d
  induction d using Nat.strong_induction_on with
  | _ d ihd =>
    intro ts lb opts fuel hd hgap hinv hfuel
    obtain ⟨fuel, rfl⟩ : ∃ f, fuel = f + 1 := ⟨fuel - 1, by omega⟩
    rw [verify_succ_eq]
    have hstore : adjacentEnv.store lb.height = none := rfl
    rw [hstore]
    by_cases hle : lb.height ≤ ts.header.height + 1
    · have hv : adjacentEnv.verifier ts lb opts = .verificationSucceeded (tsOf lb) := by
        simp only [adjacentEnv]
        rw [if_pos hle]
      rw [hv]
      intro h
      cases h
    · have hv : adjacentEnv.verifier ts lb opts =
          .verificationFailed (.invalidLightBlock .insufficientVotingPower) := by
        simp only [adjacentEnv]
        rw [if_neg hle]
      rw [hv]
      dsimp only
      rw [if_pos rfl]
      dsimp only
      have hd2 : 2 ≤ d := by omega
      unfold performBisection
      cases hadd : checkedAdd ts.header.height lb.height with
      | none =>
        intro h
        cases h
      | some s =>
        dsimp only
        have hs_eq : s = ts.header.height + lb.height := by
          unfold checkedAdd at hadd
          split at hadd
          · injection hadd with h'
            exact h'.symm
          · cases hadd
        rw [request_fetch_ok]
        dsimp only
        have hfb : fetchBlock adjacentEnv (s / 2) = mkLightBlock (s / 2) := rfl
        rw [hfb]
        have hsplit : Nat.clog 2 d = Nat.clog 2 ((d + 1) / 2) + 1 :=
          Nat.clog_of_two_le (by norm_num) hd2
        have hmono : Nat.clog 2 (d / 2) ≤ Nat.clog 2 ((d + 1) / 2) :=
          Nat.clog_mono_right 2 (by omega)
        have hleft_ih := ihd (d / 2) (by omega) ts (mkLightBlock (s / 2)) opts fuel
          (by omega) (by show s / 2 = ts.header.height + d / 2; omega) rfl (by omega)
        rcases hleft : verify_light_block adjacentEnv fuel ts (mkLightBlock (s / 2)) opts
          with ⟨lres, ltr⟩
        cases lres with
        | ok lchain =>
          dsimp only
          have hBL := ((verify_ok_invariants adjacentEnv adjacentEnv_ok fuel).1 ts
            (mkLightBlock (s / 2)) opts lchain ltr hleft rfl).2.1
            (by show ts.header.height < s / 2; omega)
          rw [hBL.2]
          dsimp only
          have hch : (canonical adjacentEnv (mkLightBlock (s / 2))).header.height = s / 2 :=
            rfl
          have hright_ih := ihd (d - d / 2) (by omega)
            (canonical adjacentEnv (mkLightBlock (s / 2))) lb opts fuel
            (by omega) (by rw [hch]; omega) hinv (by rw [show d - d / 2 = (d + 1) / 2 by omega]; omega)
          rcases hright : verify_light_block adjacentEnv fuel
            (canonical adjacentEnv (mkLightBlock (s / 2))) lb opts with ⟨rres, rtr⟩
          cases rres with
          | ok rchain =>
            intro h
            cases h
          | err e =>
            intro h
            cases h
          | panic m =>
            intro h
            cases h
          | diverge =>
            rw [hright] at hright_ih
            exact absurd rfl hright_ih
        | err e =>
          intro h
          cases h
        | panic m =>
          intro h
          cases h
        | diverge =>
          rw [hleft] at hleft_ih
          exact absurd rfl hleft_ih

/-- Claim C7 (witness): a concrete gap-2 run (`T₀` at height 10, target at
height 12) with fuel `⌈log₂ 2⌉ + 2 = 3` does not exhaust its fuel. -/
theorem c7_termination_witness :
    (verify_light_block adjacentEnv 3 t0A (mkLightBlock 12) opts0).1 ≠ Outcome.diverge :=
  c7_termination 2 t0A (mkLightBlock 12) opts0 3 (by decide) (by decide) rfl
    (by rw [Nat.clog_eq_one (by norm_num) (by norm_num)])

end LightSpike
